import Mathlib

/-!
Verification development for the kerrareg repository (a Terraform module
registry built from three controllers — Depot, Module, Version — a pluggable
storage layer and a read-path HTTP service).

The Go data model (api/v1alpha1/types.go) and the functions reached by the
claims are embedded shallowly: Go pointers become `Option`, fallible Go
functions return `Except` or `Option` (with `none` standing for a runtime
panic such as a nil-pointer dereference or an out-of-range index), and
stateful reconcile fragments become pure functions over explicit state
records.  Third-party library behaviour the code depends on
(golang.org/x/mod/semver, hashicorp/go-version) is modelled by executable
definitions faithful to those libraries on the domain the code uses.
-/

namespace Kerrareg

/-! ## Data model (api/v1alpha1/types.go) -/

/-- Embedding of AmazonS3Config. -/
structure AmazonS3Config where
  bucket : String
  key : Option String
  region : String
deriving DecidableEq, Repr

/-- Embedding of AzureStorageConfig. -/
structure AzureStorageConfig where
  accountName : String
  accountUrl : String
  subscriptionID : String
  resourceGroup : String
deriving DecidableEq, Repr

/-- Embedding of GoogleCloudStorageConfig. -/
structure GoogleCloudStorageConfig where
  bucket : String
deriving DecidableEq, Repr

/-- Embedding of FileSystemConfig. -/
structure FileSystemConfig where
  directoryPath : Option String
deriving DecidableEq, Repr

/-- Embedding of StorageConfig: the tagged union of the four backend configs. -/
structure StorageConfig where
  azureStorage : Option AzureStorageConfig
  fileSystem : Option FileSystemConfig
  s3 : Option AmazonS3Config
  gcs : Option GoogleCloudStorageConfig
deriving DecidableEq, Repr

/-- Embedding of GithubClientConfig. -/
structure GithubClientConfig where
  useAuthenticatedClient : Bool
deriving DecidableEq, Repr

/-- Embedding of ModuleConfig (a Go struct of mostly pointer fields). -/
structure ModuleConfig where
  fileFormat : Option String
  githubClientConfig : Option GithubClientConfig
  immutable : Option Bool
  name : Option String
  provider : String
  repoOwner : String
  repoUrl : Option String
  storageConfig : Option StorageConfig
  versionConstraints : String
deriving DecidableEq, Repr

/-- Embedding of ModuleVersion (an entry of Module.spec.versions / status refs). -/
structure ModuleVersion where
  fileName : Option String
  name : String
  synced : Bool
  version : String
deriving DecidableEq, Repr

/-- Embedding of ModuleSpec. -/
structure ModuleSpec where
  forceSync : Bool
  moduleConfig : ModuleConfig
  versions : List ModuleVersion
deriving DecidableEq, Repr

/-- Embedding of ModuleStatus. -/
structure ModuleStatus where
  latestVersion : Option String
  fileName : String
  synced : Bool
  syncStatus : String
  moduleVersionRefs : List (String × ModuleVersion)
deriving DecidableEq, Repr

/-- Embedding of a Module object; of the cluster metadata only the object
name is relevant to the claims. -/
structure Module where
  name : String
  spec : ModuleSpec
  status : ModuleStatus
deriving DecidableEq, Repr

/-- Embedding of ProviderConfig. -/
structure ProviderConfig where
  name : Option String
deriving DecidableEq, Repr

/-- Embedding of VersionSpec. -/
structure VersionSpec where
  fileName : Option String
  forceSync : Bool
  moduleConfigRef : Option ModuleConfig
  providerConfigRef : Option ProviderConfig
  type : String
  version : String
deriving DecidableEq, Repr

/-- Embedding of VersionStatus. -/
structure VersionStatus where
  checksum : Option String
  synced : Bool
  syncStatus : String
deriving DecidableEq, Repr

/-- Embedding of a Version object; of the cluster metadata the claims need the
object name, the finalizer list and whether the deletion timestamp is set. -/
structure Version where
  name : String
  finalizers : List String
  deletionTimestampSet : Bool
  spec : VersionSpec
  status : VersionStatus
deriving DecidableEq, Repr

/-- Embedding of the KerraregFinalizer constant. -/
def KerraregFinalizer : String := "kerrareg.io/finalizer"

/-! ## pkg/storage/storage.go -/

/-- Embedding of RemoveTrailingSlash.  A Go `*string` argument becomes
`Option String`; the outer `none` of the result models the runtime panic the
source hits when it indexes `cs[len(cs)-1]` on an empty string.  The source
drops one final byte when it is a forward or a backward slash. -/
def RemoveTrailingSlash (s : Option String) : Option (Except String String) :=
  match s with
  | none => some (Except.error "the provided string was nil")
  | some cs =>
    match cs.toList.getLast? with
    | none => none
    | some last =>
      if last = '/' ∨ last = '\\' then some (Except.ok (String.mk cs.toList.dropLast))
      else some (Except.ok cs)

/-! ## Version controller: storage factory and file-path derivation
(services/version/internal/controller/kerrareg_versions_controller.go) -/

/-- Result tag for the storage factory: which concrete backend the factory
constructed and dispatched to. -/
inductive StorageBackend
  | fileSystem
  | s3
deriving DecidableEq, Repr

/-- Message of the error returned by InitStorageFactory when it recognises no
configured backend. -/
def noStorageConfigMsg : String := "At least one StorageConfig must be configured on the Module."

/-- Embedding of the backend-selection skeleton of InitStorageFactory as a
function of soi.Version.Spec.ModuleConfigRef.StorageConfig: the source checks
the FileSystem field first, then the S3 field, and otherwise returns the
error; no other field of StorageConfig is inspected.  Client construction and
the RunStorageFactory call are abstracted into the returned backend tag. -/
def InitStorageFactory (sc : StorageConfig) : Except String StorageBackend :=
  if sc.fileSystem.isSome then Except.ok StorageBackend.fileSystem
  else if sc.s3.isSome then Except.ok StorageBackend.s3
  else Except.error noStorageConfigMsg

/-- Helper for getModuleFilePath: the final branch of the source, which joins
the module name and the file name.  The `none` result models the nil-pointer
dereference panics on a missing Name or FileName. -/
def filePathOtherwise (cfg : ModuleConfig) (v : Version) : Option String := do
  let n ← cfg.name
  let fn ← v.spec.fileName
  pure (n ++ "/" ++ fn)

/-- Helper for getModuleFilePath: the branch taken when a user-supplied
storage path prefix is present, joining the sanitised prefix, the module name
and the file name. -/
def filePathWithPrefix (pre : String) (cfg : ModuleConfig) (v : Version) : Option String := do
  let sanitized ← match RemoveTrailingSlash (some pre) with
    | some (Except.ok x) => some x
    | some (Except.error _) => none
    | none => none
  let n ← cfg.name
  let fn ← v.spec.fileName
  pure (sanitized ++ "/" ++ n ++ "/" ++ fn)

/-- Helper for getModuleFilePath: the second source branch, taken when the S3
branch did not fire — use the filesystem directory path when present, else
fall through to the default path. -/
def filePathFileSystemBranch (cfg : ModuleConfig) (sc : StorageConfig) (v : Version) : Option String :=
  match sc.fileSystem with
  | some fscfg =>
    match fscfg.directoryPath with
    | some dir => filePathWithPrefix dir cfg v
    | none => filePathOtherwise cfg v
  | none => filePathOtherwise cfg v

/-- Embedding of getModuleFilePath.  The source dereferences
version.Spec.ModuleConfigRef and its StorageConfig pointer before any check,
so `none` models those panics as well as the error return from
RemoveTrailingSlash. -/
def getModuleFilePath (v : Version) : Option String := do
  let cfg ← v.spec.moduleConfigRef
  let sc ← cfg.storageConfig
  match sc.s3 with
  | some s3cfg =>
    match s3cfg.key with
    | some key => filePathWithPrefix key cfg v
    | none => filePathFileSystemBranch cfg sc v
  | none => filePathFileSystemBranch cfg sc v

/-! ## Module controller helpers (module controller source) -/

/-- Embedding of getModuleName (module controller).  The source assigns
moduleConfig.Name to the local when the field is non-nil, but then
unconditionally overwrites the local with the Module object name, so the
function always returns the object name. -/
def getModuleName (m : Module) : String :=
  let _fromConfig := match m.spec.moduleConfig.name with
    | some n => n
    | none => ""
  let result := m.name
  result

/-- Embedding of the moduleConfigRef.Name assignment in the Version
reconciler (the KerraregModule switch case): the parent Module object name is
used only when moduleConfig.Name is nil. -/
def versionReconcilerModuleName (m : Module) : String :=
  match m.spec.moduleConfig.name with
  | none => m.name
  | some n => n

/-- Embedding of sanitizeModuleVersion: strips one leading v byte when the
string is nonempty and starts with it. -/
def sanitizeModuleVersion (version : String) : String :=
  match version.toList with
  | 'v' :: rest => String.mk rest
  | _ => version

/-- Embedding of getModuleVersionName. -/
def getModuleVersionName (m : Module) (sanitizedModuleVersion : String) : String :=
  match m.spec.moduleConfig.name with
  | none => m.name ++ "-" ++ sanitizedModuleVersion
  | some n => n ++ "-" ++ sanitizedModuleVersion

example : getModuleName ⟨"parent", ⟨false, ⟨none, none, none, some "custom", "", "", none, none, ""⟩, []⟩, ⟨none, "", false, "", []⟩⟩ = "parent" := by rfl

/-! ## Model of golang.org/x/mod/semver

The module controller computes latestVersion with semver.Canonical and
semver.Sort from golang.org/x/mod/semver.  The definitions below model that
library: `semparse` mirrors its parse function (grammar
vMAJOR[.MINOR[.PATCH[-PRERELEASE][+BUILD]]], numeric fields without leading
zeros), `semverCanonical` mirrors Canonical, and the ordering mirrors Compare
(invalid strings sort below every valid one and equal to each other; valid
ones by major, minor, patch, then prerelease with absent greater than
present, numeric identifiers below alphanumeric ones). -/

/-- Prerelease identifier: all-digit identifiers compare numerically, the
rest compare as byte strings. -/
inductive PreIdent
  | num (n : Nat)
  | alpha (cs : List Char)
deriving DecidableEq, Repr

/-- Parsed semantic version (build metadata is validated then discarded,
exactly as the library discards it for comparison and canonicalisation). -/
structure SemVer where
  major : Nat
  minor : Nat
  patch : Nat
  pre : List PreIdent
deriving DecidableEq, Repr

/-- Identifier characters of the library: ASCII letters, digits and hyphen. -/
def isIdentChar (c : Char) : Bool := c.isAlphanum || c = '-'

/-- Leading run of decimal digits and the remainder. -/
def takeDigits : List Char → (List Char × List Char)
  | [] => ([], [])
  | c :: cs =>
    if c.isDigit then
      let (d, r) := takeDigits cs
      (c :: d, r)
    else ([], c :: cs)

/-- Digit run to a natural number. -/
def digitsToNat (ds : List Char) : Nat := ds.foldl (fun a c => a * 10 + (c.toNat - 48)) 0

/-- Mirror of the library's parseInt: a nonempty digit run with no leading
zero (unless the run is exactly "0"), returning the value and the rest. -/
def parseIntC (cs : List Char) : Option (Nat × List Char) :=
  let (d, r) := takeDigits cs
  if d.isEmpty then none
  else if d.head? = some '0' ∧ d.length ≠ 1 then none
  else some (digitsToNat d, r)

/-- Mirror of one dot-separated prerelease identifier check: nonempty,
identifier characters only, and an all-digit identifier must not carry a
leading zero. -/
def classifySegment (seg : List Char) : Option PreIdent :=
  if seg.isEmpty then none
  else if ¬ seg.all isIdentChar then none
  else if seg.all (·.isDigit) then
    if 1 < seg.length ∧ seg.head? = some '0' then none
    else some (PreIdent.num (digitsToNat seg))
  else some (PreIdent.alpha seg)

/-- Mirror of parseBuild validity: dot-separated nonempty identifier runs
(leading zeros permitted). -/
def validBuild (b : List Char) : Bool :=
  (b.splitOn '.').all (fun seg => !seg.isEmpty && seg.all isIdentChar)

/-- Tail of the parse after the MAJOR.MINOR.PATCH triple: optional
-PRERELEASE (scanned up to the first plus sign) and optional +BUILD. -/
def parseTail (major minor patch : Nat) (r : List Char) : Option SemVer :=
  match r with
  | [] => some ⟨major, minor, patch, []⟩
  | '-' :: rest =>
    let preBody := rest.takeWhile (· ≠ '+')
    let after := rest.dropWhile (· ≠ '+')
    match (preBody.splitOn '.').mapM classifySegment with
    | none => none
    | some pre =>
      match after with
      | [] => some ⟨major, minor, patch, pre⟩
      | '+' :: b => if validBuild b then some ⟨major, minor, patch, pre⟩ else none
      | _ => none
  | '+' :: b => if validBuild b then some ⟨major, minor, patch, []⟩ else none
  | _ => none

/-- Mirror of the library's parse: leading v, then MAJOR with optional
.MINOR, optional .PATCH, then prerelease and build. -/
def semparse (s : String) : Option SemVer :=
  match s.toList with
  | [] => none
  | c :: cs =>
    if c ≠ 'v' then none
    else
      match parseIntC cs with
      | none => none
      | some (major, r1) =>
        match r1 with
        | [] => some ⟨major, 0, 0, []⟩
        | '.' :: r2 =>
          match parseIntC r2 with
          | none => none
          | some (minor, r3) =>
            match r3 with
            | [] => some ⟨major, minor, 0, []⟩
            | '.' :: r4 =>
              match parseIntC r4 with
              | none => none
              | some (patch, r5) => parseTail major minor patch r5
            | _ => none
        | _ => none

/-- String form of a prerelease identifier (numeric identifiers have no
leading zeros, so this inverts the parse exactly). -/
def preIdentStr : PreIdent → String
  | .num n => toString n
  | .alpha cs => String.mk cs

/-- String form of a prerelease list, with its leading hyphen. -/
def preStr (pre : List PreIdent) : String :=
  match pre with
  | [] => ""
  | _ => "-" ++ String.intercalate "." (pre.map preIdentStr)

/-- Mirror of semver.Canonical: empty on invalid input, else the padded
triple with the prerelease kept and the build dropped. -/
def semverCanonical (s : String) : String :=
  match semparse s with
  | none => ""
  | some v => "v" ++ toString v.major ++ "." ++ toString v.minor ++ "." ++ toString v.patch ++ preStr v.pre

/-- Comparison key of one prerelease identifier: numeric before alphanumeric,
numeric by value, alphanumeric by string. -/
def preIdentKey : PreIdent → Lex (Nat ⊕ List Char)
  | .num n => toLex (Sum.inl n)
  | .alpha cs => toLex (Sum.inr cs)

/-- Comparison key of a prerelease list: an absent prerelease is greatest,
otherwise lexicographic on identifiers with a proper prefix smaller. -/
abbrev PreKeyT := WithTop (List (Lex (Nat ⊕ List Char)))

/-- Key of a whole prerelease list. -/
def preKey : List PreIdent → PreKeyT
  | [] => ⊤
  | l => some (l.map preIdentKey)

/-- Comparison key of a parsed version, lexicographic in major, minor, patch
and the prerelease key; its linear order agrees with semver.Compare on valid
versions. -/
abbrev VKey := Lex (Nat × Lex (Nat × Lex (Nat × PreKeyT)))

/-- Key of a parsed version. -/
def semKey (v : SemVer) : VKey :=
  toLex (v.major, toLex (v.minor, toLex (v.patch, preKey v.pre)))

/-- Key mirroring semver.Compare on strings: invalid below every valid one
and equal to each other. -/
def versionKey (s : String) : WithBot VKey :=
  match semparse s with
  | none => ⊥
  | some v => (semKey v : WithBot VKey)

/-- Sign of semver.Compare, expressed through the key order. -/
def semverCompare (a b : String) : Ordering :=
  if versionKey a < versionKey b then Ordering.lt
  else if versionKey a = versionKey b then Ordering.eq
  else Ordering.gt

/-- Sort key of semver.Sort (ByVersion): the Compare key with ties broken by
the plain string order, which makes the order antisymmetric on strings. -/
abbrev SKey := Lex (WithBot VKey × List Char)

/-- Sort key of one string. -/
def sortKey (s : String) : SKey := toLex (versionKey s, s.toList)

/-- Sorting relation of semver.Sort (ByVersion.Less as a non-strict total
order). -/
def semverLE (a b : String) : Prop := sortKey a ≤ sortKey b

instance : DecidableRel semverLE := fun a b =>
  inferInstanceAs (Decidable (sortKey a ≤ sortKey b))

instance : IsTotal String semverLE := ⟨fun a b => le_total (sortKey a) (sortKey b)⟩

instance : IsTrans String semverLE := ⟨fun _ _ _ h h2 => le_trans h h2⟩

instance : IsRefl String semverLE := ⟨fun a => le_refl (sortKey a)⟩

instance : IsAntisymm String semverLE := by
  refine ⟨fun a b h h2 => ?_⟩
  have hk : sortKey a = sortKey b := le_antisymm h h2
  have hd : a.toList = b.toList := congrArg (fun k => (ofLex k).2) hk
  cases a
  cases b
  simp only [String.toList] at hd
  exact congrArg String.mk hd

/-- Model of semver.Sort: the Go sort is unstable, but ByVersion.Less is
induced by the antisymmetric total order `semverLE`, so the sorted
permutation is unique and insertion sort computes it. -/
def semverSort (l : List String) : List String := l.insertionSort semverLE

/-! ## Module controller: getLatestVersion -/

/-- Synthetic v prefix of getLatestVersion: the source prefixes v when byte 0
of the entry differs from it. -/
def vPrefixed (v : String) : String := if v.front ≠ 'v' then "v" ++ v else v

/-- Canonicalised entry of the loop body: the source prefixes the synthetic
v and calls semver.Canonical. -/
def canonEntry (v : String) : String := semverCanonical (vPrefixed v)

/-- Canonicalisation loop of getLatestVersion over the entries, in order;
`none` models the panic on indexing byte 0 of an empty entry. -/
def canonEntries : List String → Option (List String)
  | [] => some []
  | v :: rest =>
    if v = "" then none
    else
      match canonEntries rest with
      | none => none
      | some r => some (canonEntry v :: r)

/-- Embedding of getLatestVersion over the version strings of
module.Spec.Versions.  The source allocates a slice of the input length with
make (leaving that many empty strings) and then appends the canonicalised
entries, sorts with semver.Sort, and indexes the last element; `none` models
the two panics (indexing byte 0 of an empty entry, and indexing position -1
when the slice is empty). -/
def getLatestVersion (vs : List String) : Option String :=
  match canonEntries vs with
  | none => none
  | some canons => (semverSort (List.replicate vs.length "" ++ canons)).getLast?

/-- Embedding of the latestVersion status write of the Module reconciler:
Reconcile calls getLatestVersion on the Module and stores the returned value
in module.Status.LatestVersion unchanged. -/
def moduleReconcilerLatestVersion (m : Module) : Option String :=
  getLatestVersion (m.spec.versions.map (fun mv => mv.version))

example : semverCanonical "v1.0.0" = "v1.0.0" := by rfl
example : semverCanonical "v1.2" = "v1.2.0" := by rfl
example : semverCanonical "v1.2.3-alpha.1+b.7" = "v1.2.3-alpha.1" := by rfl
example : semverCanonical "1.2.3" = "" := by rfl
example : semverCanonical "v1.02.3" = "" := by rfl
example : getLatestVersion ["1.0.0"] = some "v1.0.0" := by rfl
example : getLatestVersion ["v1.0.0", "1.1.0", "1.2.0"] = some "v1.2.0" := by rfl
example : getLatestVersion [] = none := by rfl
example : semverCompare "v1.0.0" "v1.1.0" = Ordering.lt := by rfl
example : semverCompare "v1.0.0-alpha" "v1.0.0" = Ordering.lt := by rfl

/-! ## Character-list string helpers

Byte-level Go string operations (strings.TrimSpace, strings.HasPrefix,
strings.HasSuffix) are modelled on character lists; the inputs involved are
ASCII, where the two views agree. -/

/-- Model of strings.TrimSpace. -/
def trimChars (cs : List Char) : List Char :=
  ((cs.dropWhile (·.isWhitespace)).reverse.dropWhile (·.isWhitespace)).reverse

/-- Model of strings.HasPrefix. -/
def hasPrefixChars (cs : List Char) (pre : String) : Bool :=
  pre.toList.isPrefixOf cs

/-- Model of strings.HasSuffix. -/
def hasSuffixChars (cs : List Char) (suf : String) : Bool :=
  suf.toList.isSuffixOf cs

/-! ## Model of hashicorp go-version and the Depot constraint pass
(services/depot/internal/controller/kerrareg_depot_controller.go)

The Depot reconciler parses each release tag with version.NewVersion and
checks it against each parsed constraint.  The model covers the plain
MAJOR.MINOR.PATCH tags (with optional leading v) that the claims exercise;
Version.String() reconstructs the segments without the leading v. -/

/-- Parsed go-version value on the three-segment fragment. -/
structure GoVersion where
  major : Nat
  minor : Nat
  patch : Nat
deriving DecidableEq, Repr

/-- Leading digit run without the no-leading-zero restriction (go-version
parses segments as plain integers). -/
def parseNatSimple (cs : List Char) : Option (Nat × List Char) :=
  let (d, r) := takeDigits cs
  if d.isEmpty then none else some (digitsToNat d, r)

/-- Model of version.NewVersion on three-segment tags: optional leading v,
then MAJOR.MINOR.PATCH. -/
def goNewVersion (tag : String) : Option GoVersion :=
  let cs := match tag.toList with
    | 'v' :: rest => rest
    | other => other
  match parseNatSimple cs with
  | some (a, '.' :: r1) =>
    match parseNatSimple r1 with
    | some (b, '.' :: r2) =>
      match parseNatSimple r2 with
      | some (c, []) => some ⟨a, b, c⟩
      | _ => none
    | _ => none
  | _ => none

/-- Model of Version.String(): segments joined by dots, no leading v. -/
def goVersionString (v : GoVersion) : String :=
  toString v.major ++ "." ++ toString v.minor ++ "." ++ toString v.patch

/-- Numeric comparison key of a go-version value. -/
def goVersionKey (v : GoVersion) : Lex (Nat × Lex (Nat × Nat)) :=
  toLex (v.major, toLex (v.minor, v.patch))

/-- Constraint operators accepted by version.NewConstraint. -/
inductive ConstraintOp
  | eq
  | neq
  | gt
  | lt
  | ge
  | le
  | pessimistic
deriving DecidableEq, Repr

/-- Parsed constraint: the operator, the comparison version, and the raw
comma-separated piece the constraint was parsed from (Constraint.String()
returns that raw piece; the reconciler trims it and tests its prefix). -/
structure GoConstraint where
  op : ConstraintOp
  check : GoVersion
  original : String
deriving DecidableEq, Repr

/-- Model of Constraint.Check on the three-segment fragment.  The
pessimistic operator on a full triple pins the first two segments and
requires at least the third. -/
def goConstraintCheck (c : GoConstraint) (v : GoVersion) : Bool :=
  match c.op with
  | ConstraintOp.eq => v = c.check
  | ConstraintOp.neq => v ≠ c.check
  | ConstraintOp.gt => goVersionKey c.check < goVersionKey v
  | ConstraintOp.lt => goVersionKey v < goVersionKey c.check
  | ConstraintOp.ge => goVersionKey c.check ≤ goVersionKey v
  | ConstraintOp.le => goVersionKey v ≤ goVersionKey c.check
  | ConstraintOp.pessimistic =>
    v.major = c.check.major ∧ v.minor = c.check.minor ∧ goVersionKey c.check ≤ goVersionKey v

/-- String prefixes for which the matched-set append branch fires in the
source (only these three are tested). -/
def constraintPrefixAdds (constraintString : List Char) : Bool :=
  hasPrefixChars constraintString ">=" || hasPrefixChars constraintString "<=" ||
    hasPrefixChars constraintString "~>"

/-- Embedding of the inner release loop of the Depot reconciler for one
constraint (source lines 146-177): a satisfying tag is appended (if absent)
only when the trimmed constraint text begins with one of the three add
prefixes; a tag failing the check is removed only when the text begins with
the not-equal prefix, and that removal breaks out of the release loop.
`none` models the error return when a tag fails to parse. -/
def depotReleasePass (c : GoConstraint) : List String → List String → Option (List String)
  | [], matched => some matched
  | tag :: rest, matched =>
    match goNewVersion tag with
    | none => none
    | some version =>
      let constraintString := trimChars c.original.toList
      if goConstraintCheck c version then
        if constraintPrefixAdds constraintString then
          if goVersionString version ∈ matched then depotReleasePass c rest matched
          else depotReleasePass c rest (matched ++ [goVersionString version])
        else depotReleasePass c rest matched
      else
        if hasPrefixChars constraintString "!=" then
          if goVersionString version ∉ matched then depotReleasePass c rest matched
          else some (matched.erase (goVersionString version))
        else depotReleasePass c rest matched

/-- Embedding of the full constraint pass over one page of releases: the
outer loop runs every constraint in order over the release list, starting
from the empty matched set. -/
def depotMatchedVersions (releases : List String) (constraints : List GoConstraint) : Option (List String) :=
  constraints.foldlM (fun matched c => depotReleasePass c releases matched) []

/-- Upstream tags of the constraint-resolver scenario fixed by the claims. -/
def depotScenarioTags : List String := ["v1.0.0", "v1.0.1", "v1.1.0", "v2.0.0", "v2.0.1"]

/-- Parsed form of the constraint expression of that scenario, with the raw
pieces as version.NewConstraint receives them after splitting on commas. -/
def depotScenarioConstraints : List GoConstraint :=
  [⟨ConstraintOp.ge, ⟨1, 0, 0⟩, ">= 1.0.0"⟩,
   ⟨ConstraintOp.lt, ⟨2, 0, 0⟩, " < 2.0.0"⟩,
   ⟨ConstraintOp.neq, ⟨1, 0, 1⟩, " != 1.0.1"⟩]

example : depotMatchedVersions depotScenarioTags depotScenarioConstraints =
    some ["1.0.0", "1.1.0", "2.0.0", "2.0.1"] := by rfl

/-! ## Version controller: main reconcile tail and deletion branch -/

/-- Storage object as observed through GetObjectChecksum: the checksum the
backend reports for the stored object, when it reports one. -/
structure StoredObject where
  checksum : Option String
deriving DecidableEq, Repr

/-- Storage contents as a map from file path to stored object. -/
def StorageState := String → Option StoredObject

/-- Result record of the post-fetch reconcile tail. -/
structure ReconcileOutcome where
  getPerformed : Bool
  putPerformed : Bool
  store : StorageState
  status : VersionStatus

/-- Status message of the immutability gate (source line 249). -/
def immutableMsg (archiveChecksum : String) : String :=
  "Version is marked immutable: archive checksum doesn\x27t match spec: got \x27" ++ archiveChecksum ++ "\x27"

/-- Write of a PutObject: the backend stores the uploaded bytes and, asked
later for the object checksum, reports their base64 SHA-256, which is the
archiveChecksum the fetch step computed from those same bytes. -/
def putAt (store : StorageState) (filePath archiveChecksum : String) : StorageState :=
  fun p => if p = filePath then some ⟨some archiveChecksum⟩ else store p

/-- Embedding of the Version reconcile tail after the archive fetch (source
lines 246-352): the immutability gate, the storage decision, the storage
invocation and the status persist.  `cfg` is the resolved moduleConfigRef,
`status` the current Version status, `filePath` the derived path, and `store`
the storage contents; `none` models the nil dereference of cfg.Immutable.
Errors of the checksum Get are discarded by the source, so the Get is modelled
as filling FileExists and ObjectChecksum only when the object is present and
carries a checksum. -/
def versionReconcileMain (cfg : ModuleConfig) (status : VersionStatus)
    (archiveChecksum : String) (filePath : String) (store : StorageState) :
    Option ReconcileOutcome :=
  match cfg.immutable with
  | none => none
  | some im =>
    if im ∧ status.checksum.isSome ∧ status.checksum ≠ some archiveChecksum then
      some { getPerformed := false, putPerformed := false, store := store,
             status := { checksum := status.checksum, synced := false,
                         syncStatus := immutableMsg archiveChecksum } }
    else
      let afterFirst :
          Bool × Option String × StorageState × Bool :=
        if status.checksum.isSome then
          match store filePath with
          | some obj =>
            match obj.checksum with
            | some oc => (true, some oc, store, false)
            | none => (false, none, store, false)
          | none => (false, none, store, false)
        else
          (false, none, putAt store filePath archiveChecksum, true)
      match afterFirst with
      | (fileExists, objectChecksum, store1, putP) =>
        let syncedStatus : VersionStatus :=
          { checksum := some archiveChecksum, synced := true,
            syncStatus := "Successfully synced version" }
        if fileExists = false ∨
            (objectChecksum.isSome ∧ status.checksum.isSome ∧ objectChecksum ≠ status.checksum) then
          some { getPerformed := status.checksum.isSome, putPerformed := true,
                 store := putAt store1 filePath archiveChecksum, status := syncedStatus }
        else
          some { getPerformed := status.checksum.isSome, putPerformed := putP,
                 store := store1, status := syncedStatus }

/-- Result record of the deletion branch. -/
structure DeleteOutcome where
  deleteAttempted : Bool
  finalizerRemoved : Bool
  errorReturned : Bool
  store : StorageState

/-- Embedding of the deletion branch of the Version reconciler (source lines
133-160), entered when the deletion timestamp is set.  The file path is
derived from the Version as it stands; `deleteFails` is the outcome of the
dispatched storage Delete.  When the finalizer is absent the source falls
through to the main reconcile without touching storage. -/
def versionReconcileDelete (ver : Version) (store : StorageState) (deleteFails : Bool) : DeleteOutcome :=
  if KerraregFinalizer ∈ ver.finalizers then
    match getModuleFilePath ver with
    | none => ⟨false, false, true, store⟩
    | some filePath =>
      if deleteFails then ⟨true, false, true, store⟩
      else ⟨true, true, false, fun p => if p = filePath then none else store p⟩
  else ⟨false, false, false, store⟩

/-! ## Read-path HTTP service: download handler (server main.go) -/

/-- Response of one download request: the HTTP status, the Content-Type
header when set, and whether archive bytes were streamed to the client. -/
structure HttpOutcome where
  status : Nat
  contentType : Option String
  bodyWritten : Bool
deriving DecidableEq, Repr

/-- Embedding of getObjectFromStorageSystem: the checksum gate and the
streaming tail of the download handlers.  `checksumLookupFails` models an
error from GetObjectChecksum, `objectChecksum` the checksum it reported,
`getObjectFails` an error from GetObject; `checksum` is the fileChecksum
query parameter. -/
def getObjectFromStorageSystem (filePath checksum : String)
    (checksumLookupFails : Bool) (objectChecksum : Option String)
    (getObjectFails : Bool) : HttpOutcome :=
  if checksumLookupFails then ⟨500, none, false⟩
  else if objectChecksum.isSome ∧ objectChecksum ≠ some checksum then ⟨500, none, false⟩
  else if getObjectFails then ⟨500, none, false⟩
  else if hasSuffixChars filePath.toList ".zip" then ⟨200, some "application/zip", true⟩
  else ⟨200, some "application/x-tar", true⟩

example : getObjectFromStorageSystem "M/a.zip" "CHK" false (some "CHK") false =
    ⟨200, some "application/zip", true⟩ := by rfl
example : getObjectFromStorageSystem "M/a.tar.gz" "CHK" false (some "OTHER") false =
    ⟨500, none, false⟩ := by rfl

/-! ## Helper lemmas -/

/-- Prefix test is stable under appending on the right. -/
theorem hasPrefixChars_mono {cs : List Char} (t : List Char) (p : String)
    (h : hasPrefixChars cs p = true) : hasPrefixChars (cs ++ t) p = true := by
  rw [hasPrefixChars] at h ⊢
  exact List.isPrefixOf_iff_prefix.mpr
    ((List.isPrefixOf_iff_prefix.mp h).trans (List.prefix_append cs t))

/-- Immutability message starts with the phrase the claims quote. -/
theorem immutableMsg_prefix (a : String) :
    hasPrefixChars (immutableMsg a).toList "Version is marked immutable" = true := by
  have hd : (immutableMsg a).toList =
      ("Version is marked immutable: archive checksum doesn\x27t match spec: got \x27".toList ++
        a.toList) ++ "\x27".toList := by
    simp [immutableMsg, String.toList, String.data_append]
  rw [hd]
  apply hasPrefixChars_mono
  apply hasPrefixChars_mono
  decide

/-- Nonempty strings have a nonempty character list. -/
theorem toList_ne_nil_of_ne_empty {s : String} (h : s ≠ "") : s.toList ≠ [] := by
  intro h0
  apply h
  cases s with
  | mk data =>
    simp [String.toList] at h0
    simp [h0]

/-! ## Claim theorems -/

/-- Concrete immutable module configuration used by witnesses. -/
def immutableCfg : ModuleConfig := ⟨none, none, some true, some "M", "", "", none, none, ""⟩

/-- Empty storage used by witnesses. -/
def emptyStore : StorageState := fun _ => none

/-- C1: when moduleConfigRef.immutable is true, status.checksum is non-nil
and the fetched archive checksum differs from it, the reconcile tail sets
synced to false, sets syncStatus to the immutability message (which starts
with the phrase "Version is marked immutable"), performs no storage Put and
leaves the storage contents unchanged. -/
theorem version_immutability_gate (cfg : ModuleConfig) (status : VersionStatus)
    (archiveChecksum c filePath : String) (store : StorageState)
    (him : cfg.immutable = some true)
    (hchk : status.checksum = some c)
    (hne : c ≠ archiveChecksum) :
    versionReconcileMain cfg status archiveChecksum filePath store =
      some { getPerformed := false, putPerformed := false, store := store,
             status := { checksum := some c, synced := false,
                         syncStatus := immutableMsg archiveChecksum } } ∧
    hasPrefixChars (immutableMsg archiveChecksum).toList "Version is marked immutable" = true := by
  refine ⟨?_, immutableMsg_prefix _⟩
  simp only [versionReconcileMain, him]
  split
  · simp [hchk]
  · rename_i hcond
    exact absurd ⟨trivial, by simp [hchk], by simp [hchk, hne]⟩ hcond

/-- Witness for C1. -/
theorem version_immutability_gate_witness :
    versionReconcileMain immutableCfg ⟨some "A=", true, ""⟩ "B=" "M/f.zip" emptyStore =
      some { getPerformed := false, putPerformed := false, store := emptyStore,
             status := ⟨some "A=", false, immutableMsg "B="⟩ } ∧
    hasPrefixChars (immutableMsg "B=").toList "Version is marked immutable" = true :=
  version_immutability_gate immutableCfg ⟨some "A=", true, ""⟩ "B=" "A=" "M/f.zip" emptyStore
    rfl rfl (by decide)

/-- C4: on a second reconcile with no upstream change (the fetched checksum
equals status.checksum) the reconciler issues the checksum Get, finds the
file present with a matching stored checksum, and issues no Put; storage is
unchanged and the status is rewritten as synced. -/
theorem version_second_reconcile_noop (cfg : ModuleConfig) (status : VersionStatus)
    (c filePath : String) (store : StorageState)
    (him : cfg.immutable.isSome = true)
    (hchk : status.checksum = some c)
    (hobj : store filePath = some ⟨some c⟩) :
    versionReconcileMain cfg status c filePath store =
      some { getPerformed := true, putPerformed := false, store := store,
             status := { checksum := some c, synced := true,
                         syncStatus := "Successfully synced version" } } := by
  obtain ⟨im, him2⟩ := Option.isSome_iff_exists.mp him
  simp only [versionReconcileMain, him2]
  split
  · rename_i hcond
    exact absurd hcond (by simp [hchk])
  · simp [hchk, hobj]

/-- Storage holding exactly the object of the C4 witness. -/
def noopStore : StorageState := fun p => if p = "M/f.zip" then some ⟨some "A="⟩ else none

/-- Witness for C4. -/
theorem version_second_reconcile_noop_witness :
    versionReconcileMain immutableCfg ⟨some "A=", true, "Successfully synced version"⟩
        "A=" "M/f.zip" noopStore =
      some { getPerformed := true, putPerformed := false, store := noopStore,
             status := ⟨some "A=", true, "Successfully synced version"⟩ } :=
  version_second_reconcile_noop immutableCfg ⟨some "A=", true, "Successfully synced version"⟩
    "A=" "M/f.zip" noopStore rfl rfl (by rfl)

/-- C5: with the deletion timestamp set and the finalizer present, the
reconciler attempts the storage Delete at the derived path; the finalizer is
removed exactly when the Delete succeeds, a failed Delete returns the error
with the finalizer kept, and (for every Version and storage whatsoever) the
finalizer is never removed without a Delete having been attempted. -/
theorem version_delete_finalizer_order (ver : Version) (store : StorageState) (deleteFails : Bool)
    (hfin : KerraregFinalizer ∈ ver.finalizers)
    (hpath : (getModuleFilePath ver).isSome = true) :
    (versionReconcileDelete ver store deleteFails).deleteAttempted = true ∧
    (deleteFails = true → (versionReconcileDelete ver store deleteFails).finalizerRemoved = false ∧
      (versionReconcileDelete ver store deleteFails).errorReturned = true) ∧
    (deleteFails = false → (versionReconcileDelete ver store deleteFails).finalizerRemoved = true ∧
      (versionReconcileDelete ver store deleteFails).errorReturned = false) ∧
    (∀ (v2 : Version) (st : StorageState) (df : Bool),
      (versionReconcileDelete v2 st df).finalizerRemoved = true →
      (versionReconcileDelete v2 st df).deleteAttempted = true) := by
  obtain ⟨fp, hfp⟩ := Option.isSome_iff_exists.mp hpath
  refine ⟨?_, ?_, ?_, ?_⟩
  · simp [versionReconcileDelete, hfin, hfp]
    cases deleteFails <;> simp
  · intro hdf
    subst hdf
    simp [versionReconcileDelete, hfin, hfp]
  · intro hdf
    subst hdf
    simp [versionReconcileDelete, hfin, hfp]
  · intro v2 st df h
    rw [versionReconcileDelete] at h ⊢
    by_cases hm : KerraregFinalizer ∈ v2.finalizers
    · rw [if_pos hm] at h ⊢
      cases hfp2 : getModuleFilePath v2 with
      | none => simp [hfp2] at h
      | some fp2 =>
        simp only [hfp2] at h ⊢
        cases df <;> simp_all
    · rw [if_neg hm] at h
      exact absurd h (by simp)

/-- Version object of the C5 witness: finalizer present, full config. -/
def deleteVersion : Version :=
  { name := "M-1.0.0", finalizers := [KerraregFinalizer], deletionTimestampSet := true,
    spec := { fileName := some "f.zip", forceSync := false,
              moduleConfigRef := some ⟨none, none, some false, some "M", "", "", none,
                some ⟨none, none, none, none⟩, ""⟩,
              providerConfigRef := none, type := "Module", version := "1.0.0" },
    status := ⟨some "A=", true, ""⟩ }

/-- Witness for C5. -/
theorem version_delete_finalizer_order_witness :
    (versionReconcileDelete deleteVersion emptyStore false).deleteAttempted = true ∧
    (false = true → (versionReconcileDelete deleteVersion emptyStore false).finalizerRemoved = false ∧
      (versionReconcileDelete deleteVersion emptyStore false).errorReturned = true) ∧
    (false = false → (versionReconcileDelete deleteVersion emptyStore false).finalizerRemoved = true ∧
      (versionReconcileDelete deleteVersion emptyStore false).errorReturned = false) ∧
    (∀ (v2 : Version) (st : StorageState) (df : Bool),
      (versionReconcileDelete v2 st df).finalizerRemoved = true →
      (versionReconcileDelete v2 st df).deleteAttempted = true) :=
  version_delete_finalizer_order deleteVersion emptyStore false (by decide) (by rfl)

/-- StorageConfig with only the GCS backend set, used by the C6
counterexample. -/
def gcsOnlyConfig : StorageConfig := ⟨none, none, none, some ⟨"bucket"⟩⟩

/-- C6 counterexample: a StorageConfig carrying one of the four backends
(Google Cloud Storage) for which the factory nevertheless returns the
"at least one StorageConfig" error, refuting the claimed "error if and only
if none of the four backends is configured". -/
theorem storage_factory_error_counterexample :
    InitStorageFactory gcsOnlyConfig = Except.error noStorageConfigMsg ∧
    gcsOnlyConfig.gcs.isSome = true ∧ gcsOnlyConfig.azureStorage = none ∧
    gcsOnlyConfig.fileSystem = none ∧ gcsOnlyConfig.s3 = none :=
  ⟨rfl, rfl, rfl, rfl, rfl⟩

/-- C6 amended: the factory dispatches only to the filesystem and S3
backends — filesystem wins when configured, S3 otherwise — and returns the
"at least one StorageConfig" error exactly when neither of those two fields
is set, regardless of the Azure and GCS fields. -/
theorem storage_factory_amended (sc : StorageConfig) :
    ((∃ e, InitStorageFactory sc = Except.error e) ↔ sc.fileSystem = none ∧ sc.s3 = none) ∧
    (sc.fileSystem.isSome = true → InitStorageFactory sc = Except.ok StorageBackend.fileSystem) ∧
    (sc.fileSystem = none → sc.s3.isSome = true →
      InitStorageFactory sc = Except.ok StorageBackend.s3) := by
  obtain ⟨az, fs, s3, gcs⟩ := sc
  refine ⟨?_, ?_, ?_⟩
  · cases fs <;> cases s3 <;> simp [InitStorageFactory]
  · cases fs <;> simp [InitStorageFactory]
  · intro h1 h2
    cases s3 <;> simp_all [InitStorageFactory]

/-- StorageConfig with only the filesystem backend set. -/
def fsOnlyConfig : StorageConfig := ⟨none, some ⟨some "/data"⟩, none, none⟩

/-- Witness for the amended C6. -/
theorem storage_factory_amended_witness :
    InitStorageFactory fsOnlyConfig = Except.ok StorageBackend.fileSystem :=
  (storage_factory_amended fsOnlyConfig).2.1 rfl

/-- Module whose config name differs from the object name, exhibiting the
getModuleName bug. -/
def moduleWithCustomName : Module :=
  { name := "parent",
    spec := { forceSync := false,
              moduleConfig := ⟨none, none, none, some "custom", "", "", none, none, ""⟩,
              versions := [] },
    status := ⟨none, "", false, "", []⟩ }

/-- C8: getModuleName ignores a set moduleConfig.Name — its own doc comment
and the Version reconciler both use the config name when present, yet the
function unconditionally returns the parent object name. -/
theorem get_module_name_ignores_config :
    getModuleName moduleWithCustomName = "parent" ∧
    moduleWithCustomName.spec.moduleConfig.name = some "custom" ∧
    versionReconcilerModuleName moduleWithCustomName = "custom" ∧
    ("parent" : String) ≠ "custom" :=
  ⟨rfl, rfl, rfl, by decide⟩

/-- C9: with the storage-reported checksum present and equal to the
fileChecksum query parameter the handler streams the archive with the
Content-Type chosen by the .zip suffix; with the reported checksum present
and different it answers 500 and writes no body. -/
theorem download_checksum_gate (filePath checksum oc : String) (getObjectFails : Bool) :
    (oc = checksum → hasSuffixChars filePath.toList ".zip" = true →
      getObjectFromStorageSystem filePath checksum false (some oc) false =
        ⟨200, some "application/zip", true⟩) ∧
    (oc = checksum → hasSuffixChars filePath.toList ".zip" = false →
      getObjectFromStorageSystem filePath checksum false (some oc) false =
        ⟨200, some "application/x-tar", true⟩) ∧
    (oc ≠ checksum →
      getObjectFromStorageSystem filePath checksum false (some oc) getObjectFails =
        ⟨500, none, false⟩) := by
  refine ⟨fun h1 h2 => ?_, fun h1 h2 => ?_, fun h1 => ?_⟩
  · subst h1
    rw [getObjectFromStorageSystem, if_neg (by simp), if_neg (by simp), if_neg (by simp),
      if_pos h2]
  · subst h1
    rw [getObjectFromStorageSystem, if_neg (by simp), if_neg (by simp), if_neg (by simp),
      if_neg (by rw [h2]; simp)]
  · rw [getObjectFromStorageSystem, if_neg (by simp), if_pos ⟨rfl, by simp [h1]⟩]

/-! ### C2: the Depot constraint pass -/

/-- Character lists to which the add branch applies never carry the
not-equal prefix. -/
theorem hasPrefixChars_false_of_head {c : Char} {t : List Char} {p : String} {q : Char}
    {qt : List Char} (hp : p.toList = q :: qt) (hne : q ≠ c) :
    hasPrefixChars (c :: t) p = false := by
  rw [hasPrefixChars, hp]
  simp [List.isPrefixOf, hne]

/-- Head of a list determined by a successful prefix test. -/
theorem head_eq_of_hasPrefixChars {c : Char} {t : List Char} {p : String} {q : Char}
    {qt : List Char} (hp : p.toList = q :: qt) (h : hasPrefixChars (c :: t) p = true) :
    c = q := by
  rw [hasPrefixChars, hp] at h
  simp only [List.isPrefixOf, Bool.and_eq_true, beq_iff_eq] at h
  exact h.1.symm

/-- A constraint text that fires the add branch cannot also carry the
not-equal prefix. -/
theorem not_neq_prefix_of_adds {cs : List Char} (h : constraintPrefixAdds cs = true) :
    hasPrefixChars cs "!=" = false := by
  cases cs with
  | nil => rfl
  | cons c t =>
    rw [constraintPrefixAdds, Bool.or_eq_true, Bool.or_eq_true] at h
    rcases h with (h | h) | h
    · rw [head_eq_of_hasPrefixChars (p := ">=") rfl h]
      exact hasPrefixChars_false_of_head (p := "!=") rfl (by decide)
    · rw [head_eq_of_hasPrefixChars (p := "<=") rfl h]
      exact hasPrefixChars_false_of_head (p := "!=") rfl (by decide)
    · rw [head_eq_of_hasPrefixChars (p := "~>") rfl h]
      exact hasPrefixChars_false_of_head (p := "!=") rfl (by decide)

/-- Release pass of a constraint whose text neither fires the add branch nor
carries the not-equal prefix: the matched set is returned unchanged whenever
every tag parses. -/
theorem depotReleasePass_no_modify (c : GoConstraint)
    (hadd : constraintPrefixAdds (trimChars c.original.toList) = false)
    (hneq : hasPrefixChars (trimChars c.original.toList) "!=" = false) :
    ∀ (releases matched : List String),
      (∀ t ∈ releases, (goNewVersion t).isSome = true) →
      depotReleasePass c releases matched = some matched := by
  intro releases
  induction releases with
  | nil => intro matched _; rfl
  | cons tag rest ih =>
    intro matched hall
    obtain ⟨v, hv⟩ := Option.isSome_iff_exists.mp (hall tag (by simp))
    have hrest : ∀ t ∈ rest, (goNewVersion t).isSome = true :=
      fun t ht => hall t (by simp [ht])
    simp only [depotReleasePass, hv]
    by_cases hc : goConstraintCheck c v = true
    · rw [if_pos hc, if_neg (by simp only [Bool.not_eq_true]; exact hadd)]
      exact ih matched hrest
    · rw [if_neg hc, if_neg (by simp only [Bool.not_eq_true]; exact hneq)]
      exact ih matched hrest

/-- Release pass of a constraint whose text fires the add branch: the matched
set only grows, and every tag satisfying the constraint ends up in the
result. -/
theorem depotReleasePass_adds (c : GoConstraint)
    (hadd : constraintPrefixAdds (trimChars c.original.toList) = true) :
    ∀ (releases matched result : List String),
      depotReleasePass c releases matched = some result →
      (∀ x ∈ matched, x ∈ result) ∧
      (∀ t ∈ releases, ∀ v, goNewVersion t = some v → goConstraintCheck c v = true →
        goVersionString v ∈ result) := by
  intro releases
  induction releases with
  | nil =>
    intro matched result h
    simp only [depotReleasePass] at h
    cases h
    exact ⟨fun x hx => hx, by simp⟩
  | cons tag rest ih =>
    intro matched result h
    simp only [depotReleasePass] at h
    cases hv : goNewVersion tag with
    | none => simp [hv] at h
    | some v =>
      simp only [hv] at h
      by_cases hc : goConstraintCheck c v = true
      · rw [if_pos hc, if_pos hadd] at h
        by_cases hmem : goVersionString v ∈ matched
        · rw [if_pos hmem] at h
          obtain ⟨hsub, htags⟩ := ih matched result h
          refine ⟨hsub, ?_⟩
          intro t ht v2 hv2 hc2
          rcases List.mem_cons.mp ht with rfl | ht2
          · rw [hv] at hv2
            cases hv2
            exact hsub _ hmem
          · exact htags t ht2 v2 hv2 hc2
        · rw [if_neg hmem] at h
          obtain ⟨hsub, htags⟩ := ih (matched ++ [goVersionString v]) result h
          refine ⟨fun x hx => hsub x (by simp [hx]), ?_⟩
          intro t ht v2 hv2 hc2
          rcases List.mem_cons.mp ht with rfl | ht2
          · rw [hv] at hv2
            cases hv2
            exact hsub _ (by simp)
          · exact htags t ht2 v2 hv2 hc2
      · rw [if_neg hc,
          if_neg (by simp only [Bool.not_eq_true]; exact not_neq_prefix_of_adds hadd)] at h
        obtain ⟨hsub, htags⟩ := ih matched result h
        refine ⟨hsub, ?_⟩
        intro t ht v2 hv2 hc2
        rcases List.mem_cons.mp ht with rfl | ht2
        · rw [hv] at hv2
          cases hv2
          exact absurd hc2 hc
        · exact htags t ht2 v2 hv2 hc2

/-- C2 counterexample: on the fixed scenario (tags v1.0.0, v1.0.1, v1.1.0,
v2.0.0, v2.0.1 and constraints ">= 1.0.0, < 2.0.0, != 1.0.1") the code
computes the matched set [1.0.0, 1.1.0, 2.0.0, 2.0.1] — it contains 2.0.0 and
2.0.1, so it is not the claimed {1.0.0, 1.1.0}: the "< 2.0.0" constraint
never removes nor filters anything because only >=, <= and ~> prefixes add
and only != removes. -/
theorem depot_resolver_scenario_counterexample :
    depotMatchedVersions depotScenarioTags depotScenarioConstraints =
      some ["1.0.0", "1.1.0", "2.0.0", "2.0.1"] ∧
    "2.0.0" ∈ ["1.0.0", "1.1.0", "2.0.0", "2.0.1"] ∧
    depotMatchedVersions depotScenarioTags depotScenarioConstraints ≠
      some ["1.0.0", "1.1.0"] :=
  ⟨rfl, by decide, by decide⟩

/-- C2 amended: on the scenario the matched set is exactly
[1.0.0, 1.1.0, 2.0.0, 2.0.1]; in general a constraint adds its satisfying
tags (deduplicated) only when its trimmed text begins with >=, <= or ~>,
while a positive constraint written with >, < or = (no add prefix, no !=
prefix) leaves the matched set unchanged; a != constraint removes its tag if
present, as the scenario shows for 1.0.1. -/
theorem depot_resolver_amended :
    depotMatchedVersions depotScenarioTags depotScenarioConstraints =
      some ["1.0.0", "1.1.0", "2.0.0", "2.0.1"] ∧
    (∀ (c : GoConstraint) (releases matched : List String),
      constraintPrefixAdds (trimChars c.original.toList) = false →
      hasPrefixChars (trimChars c.original.toList) "!=" = false →
      (∀ t ∈ releases, (goNewVersion t).isSome = true) →
      depotReleasePass c releases matched = some matched) ∧
    (∀ (c : GoConstraint) (releases matched result : List String),
      constraintPrefixAdds (trimChars c.original.toList) = true →
      depotReleasePass c releases matched = some result →
      ∀ t ∈ releases, ∀ v, goNewVersion t = some v → goConstraintCheck c v = true →
        goVersionString v ∈ result) := by
  refine ⟨by rfl, ?_, ?_⟩
  · intro c releases matched h1 h2 h3
    exact depotReleasePass_no_modify c h1 h2 releases matched h3
  · intro c releases matched result h1 h2
    exact (depotReleasePass_adds c h1 releases matched result h2).2

/-- Witness for the amended C2. -/
theorem depot_resolver_amended_witness :
    depotMatchedVersions depotScenarioTags depotScenarioConstraints =
      some ["1.0.0", "1.1.0", "2.0.0", "2.0.1"] ∧
    depotReleasePass ⟨ConstraintOp.lt, ⟨2, 0, 0⟩, " < 2.0.0"⟩ depotScenarioTags ["1.0.0"] =
      some ["1.0.0"] ∧
    "1.0.0" ∈ ["1.0.0", "1.0.1", "1.1.0", "2.0.0", "2.0.1"] :=
  ⟨depot_resolver_amended.1,
   depot_resolver_amended.2.1 ⟨ConstraintOp.lt, ⟨2, 0, 0⟩, " < 2.0.0"⟩ depotScenarioTags
     ["1.0.0"] (by rfl) (by rfl) (by decide),
   depot_resolver_amended.2.2 ⟨ConstraintOp.ge, ⟨1, 0, 0⟩, ">= 1.0.0"⟩ depotScenarioTags []
     ["1.0.0", "1.0.1", "1.1.0", "2.0.0", "2.0.1"] (by rfl) (by rfl) "v1.0.0" (by decide)
     ⟨1, 0, 0⟩ (by rfl) (by rfl)⟩

/-! ### C3 and C10: the latest-version computation -/

/-- Distribution of toList over string append. -/
theorem toList_append (a b : String) : (a ++ b).toList = a.toList ++ b.toList :=
  String.data_append a b

/-- Last element of a sorted list is an upper bound. -/
theorem rel_getLast_of_sorted {α : Type} {r : α → α → Prop} (hrefl : ∀ a, r a a) :
    ∀ (l : List α) (h : l ≠ []), l.Sorted r → ∀ x ∈ l, r x (l.getLast h) := by
  intro l
  induction l with
  | nil => intro h; exact absurd rfl h
  | cons a t ih =>
    intro h hs x hx
    cases t with
    | nil =>
      have hxa : x = a := by simpa using hx
      subst hxa
      simpa using hrefl x
    | cons b t2 =>
      rw [List.getLast_cons (by simp)]
      rcases List.mem_cons.mp hx with rfl | hx2
      · exact (List.sorted_cons.mp hs).1 _ (List.getLast_mem (by simp))
      · exact ih (by simp) hs.of_cons x hx2

/-- Sorting a nonempty list yields a nonempty list. -/
theorem semverSort_ne_nil {l : List String} (h : l ≠ []) : semverSort l ≠ [] := by
  intro h0
  apply h
  have hlen := (List.perm_insertionSort semverLE l).length_eq
  rw [semverSort] at h0
  rw [h0] at hlen
  exact List.length_eq_zero.mp hlen.symm

/-- Last element of semver.Sort is a member that bounds every input from
above in the sort order. -/
theorem semverSort_getLast_max (l : List String) (hne : l ≠ []) :
    ∃ h2 : semverSort l ≠ [],
      (semverSort l).getLast h2 ∈ l ∧ ∀ x ∈ l, semverLE x ((semverSort l).getLast h2) := by
  have hperm : List.Perm (List.insertionSort semverLE l) l := List.perm_insertionSort semverLE l
  have hsorted : (semverSort l).Sorted semverLE := List.sorted_insertionSort semverLE l
  have hne2 : semverSort l ≠ [] := semverSort_ne_nil hne
  refine ⟨hne2, ?_, ?_⟩
  · exact hperm.mem_iff.mp (List.getLast_mem hne2)
  · intro x hx
    exact rel_getLast_of_sorted (fun a => le_refl (sortKey a)) _ hne2 hsorted x
      (hperm.mem_iff.mpr hx)

/-- Evaluation of the canonicalisation loop on lists without empty
entries. -/
theorem canonEntries_of_ne_empty :
    ∀ (vs : List String), (∀ v ∈ vs, v ≠ "") →
      canonEntries vs = some (vs.map canonEntry) := by
  intro vs
  induction vs with
  | nil => intro _; rfl
  | cons a t ih =>
    intro h
    have ha : ¬ a = "" := h a (by simp)
    have ht := ih (fun v hv => h v (by simp [hv]))
    simp [canonEntries, ha, ht]

/-- Sort key of the empty string is strictly below the key of every nonempty
string, since the invalid component is bottom and the empty character list is
lexicographically least. -/
theorem sortKey_empty_lt (c : String) (hc : c ≠ "") : sortKey "" < sortKey c := by
  rw [sortKey, sortKey, Prod.Lex.lt_iff]
  match hk : versionKey c with
  | none =>
    right
    refine ⟨rfl, ?_⟩
    cases hcl : c.toList with
    | nil => exact absurd hcl (toList_ne_nil_of_ne_empty hc)
    | cons a as =>
      show ("" : String).toList < a :: as
      exact List.nil_lt_cons a as
  | some k =>
    left
    show (⊥ : WithBot VKey) < (k : WithBot VKey)
    exact WithBot.bot_lt_coe k

/-- Canonical form of a parseable version is nonempty. -/
theorem semverCanonical_ne_empty {s : String} (h : (semparse s).isSome = true) :
    semverCanonical s ≠ "" := by
  obtain ⟨sv, hsv⟩ := Option.isSome_iff_exists.mp h
  rw [semverCanonical, hsv]
  intro h0
  have hl := congrArg String.toList h0
  simp only [toList_append] at hl
  simp [String.toList] at hl

/-- Canonical form of a parseable version starts with the synthetic v. -/
theorem semverCanonical_hasPrefix_v {s : String} (h : (semparse s).isSome = true) :
    hasPrefixChars (semverCanonical s).toList "v" = true := by
  obtain ⟨sv, hsv⟩ := Option.isSome_iff_exists.mp h
  rw [semverCanonical, hsv]
  simp only [toList_append]
  apply hasPrefixChars_mono
  apply hasPrefixChars_mono
  apply hasPrefixChars_mono
  apply hasPrefixChars_mono
  apply hasPrefixChars_mono
  apply hasPrefixChars_mono
  decide

/-- Order on Compare keys extracted from the sort order. -/
theorem versionKey_le_of_semverLE {a b : String} (h : semverLE a b) :
    versionKey a ≤ versionKey b := by
  rw [semverLE, sortKey, sortKey, Prod.Lex.le_iff] at h
  rcases h with h | ⟨h1, _⟩
  · exact le_of_lt h
  · exact le_of_eq h1

/-- Compare never answers gt against an upper bound. -/
theorem semverCompare_ne_gt_of_le {a b : String} (h : versionKey a ≤ versionKey b) :
    semverCompare a b ≠ Ordering.gt := by
  rcases h.lt_or_eq with hlt | heq
  · simp [semverCompare, hlt]
  · simp [semverCompare, heq]

/-- Module with one version entry written without a leading v, exhibiting the
stored latestVersion. -/
def singleVersionModule : Module :=
  { name := "M",
    spec := { forceSync := false,
              moduleConfig := ⟨some "zip", none, some false, none, "", "", none, none, ""⟩,
              versions := [⟨none, "", false, "1.0.0"⟩] },
    status := ⟨none, "", false, "", []⟩ }

/-- C3 counterexample: for spec.versions = [1.0.0] the reconciler stores
v1.0.0 in status.latestVersion — the synthetic leading v is never stripped
before the status write, while the claim expects the sanitised 1.0.0. -/
theorem module_latest_version_counterexample :
    moduleReconcilerLatestVersion singleVersionModule = some "v1.0.0" ∧
    sanitizeModuleVersion "v1.0.0" = "1.0.0" ∧
    some ("v1.0.0" : String) ≠ some ("1.0.0" : String) :=
  ⟨rfl, rfl, by decide⟩

/-- General maximum property of getLatestVersion on a list of nonempty,
canonicalisable entries: the result is the canonicalised entry that no other
canonicalised entry exceeds in the Compare order, and it keeps its leading
v. -/
theorem getLatestVersion_max (vs : List String) (hne : vs ≠ [])
    (hval : ∀ v ∈ vs, v ≠ "" ∧ (semparse (vPrefixed v)).isSome = true) :
    ∃ r, getLatestVersion vs = some r ∧ r ∈ vs.map canonEntry ∧
      (∀ x ∈ vs.map canonEntry, semverCompare x r ≠ Ordering.gt) ∧
      hasPrefixChars r.toList "v" = true := by
  have hce : canonEntries vs = some (vs.map canonEntry) :=
    canonEntries_of_ne_empty vs (fun v hv => (hval v hv).1)
  have hLne : List.replicate vs.length "" ++ vs.map canonEntry ≠ [] := by
    intro h0
    rcases List.append_eq_nil.mp h0 with ⟨-, h2⟩
    exact hne (List.map_eq_nil_iff.mp h2)
  obtain ⟨hsne, hmem, hmax⟩ :=
    semverSort_getLast_max (List.replicate vs.length "" ++ vs.map canonEntry) hLne
  refine ⟨(semverSort (List.replicate vs.length "" ++ vs.map canonEntry)).getLast hsne,
    ?_, ?_, ?_, ?_⟩
  · rw [getLatestVersion, hce]
    exact List.getLast?_eq_getLast _ hsne
  · rcases List.mem_append.mp hmem with hrep | hok
    · exfalso
      have hr0 := List.eq_of_mem_replicate hrep
      obtain ⟨v0, hv0⟩ := List.exists_mem_of_ne_nil vs hne
      have hc0 : canonEntry v0 ∈ List.replicate vs.length "" ++ vs.map canonEntry :=
        List.mem_append.mpr (Or.inr (List.mem_map_of_mem canonEntry hv0))
      have hle := hmax _ hc0
      rw [hr0] at hle
      have hlt := sortKey_empty_lt (canonEntry v0) (semverCanonical_ne_empty (hval v0 hv0).2)
      exact absurd hle (not_le.mpr hlt)
    · exact hok
  · intro x hx
    exact semverCompare_ne_gt_of_le (versionKey_le_of_semverLE
      (hmax x (List.mem_append.mpr (Or.inr hx))))
  · rcases List.mem_append.mp hmem with hrep | hok
    · exfalso
      have hr0 := List.eq_of_mem_replicate hrep
      obtain ⟨v0, hv0⟩ := List.exists_mem_of_ne_nil vs hne
      have hc0 : canonEntry v0 ∈ List.replicate vs.length "" ++ vs.map canonEntry :=
        List.mem_append.mpr (Or.inr (List.mem_map_of_mem canonEntry hv0))
      have hle := hmax _ hc0
      rw [hr0] at hle
      have hlt := sortKey_empty_lt (canonEntry v0) (semverCanonical_ne_empty (hval v0 hv0).2)
      exact absurd hle (not_le.mpr hlt)
    · obtain ⟨v1, hv1, hrv1⟩ := List.mem_map.mp hok
      rw [← hrv1]
      exact semverCanonical_hasPrefix_v (hval v1 hv1).2

/-- C3 amended: for a Module with a non-empty spec.versions list of nonempty,
canonicalisable entries, status.latestVersion receives the canonical-semver
maximum of the v-prefixed entries WITH the synthetic leading v retained: the
stored value is one of the canonicalised entries, no canonicalised entry
compares above it under semver.Compare, and it starts with v. -/
theorem module_latest_version_amended (m : Module)
    (hne : m.spec.versions ≠ [])
    (hval : ∀ mv ∈ m.spec.versions, mv.version ≠ "" ∧
      (semparse (vPrefixed mv.version)).isSome = true) :
    ∃ r, moduleReconcilerLatestVersion m = some r ∧
      r ∈ (m.spec.versions.map (fun mv => mv.version)).map canonEntry ∧
      (∀ x ∈ (m.spec.versions.map (fun mv => mv.version)).map canonEntry,
        semverCompare x r ≠ Ordering.gt) ∧
      hasPrefixChars r.toList "v" = true := by
  apply getLatestVersion_max
  · intro h0
    exact hne (List.map_eq_nil_iff.mp h0)
  · intro v hv
    obtain ⟨mv, hmv, rfl⟩ := List.mem_map.mp hv
    exact hval mv hmv

/-- Module with three entries in mixed notation. -/
def multiVersionModule : Module :=
  { name := "M",
    spec := { forceSync := false,
              moduleConfig := ⟨some "zip", none, some false, none, "", "", none, none, ""⟩,
              versions := [⟨none, "", false, "1.0.0"⟩, ⟨none, "", false, "v1.2.0"⟩,
                ⟨none, "", false, "1.1.0"⟩] },
    status := ⟨none, "", false, "", []⟩ }

/-- Witness for the amended C3. -/
theorem module_latest_version_amended_witness :
    ∃ r, moduleReconcilerLatestVersion multiVersionModule = some r ∧
      r ∈ (multiVersionModule.spec.versions.map (fun mv => mv.version)).map canonEntry ∧
      (∀ x ∈ (multiVersionModule.spec.versions.map (fun mv => mv.version)).map canonEntry,
        semverCompare x r ≠ Ordering.gt) ∧
      hasPrefixChars r.toList "v" = true :=
  module_latest_version_amended multiVersionModule (by decide) (by decide)

/-- Module with an empty spec.versions list, as the Depot reconciler writes
when no upstream tag matches the constraints. -/
def emptyVersionsModule : Module :=
  { name := "M",
    spec := { forceSync := false,
              moduleConfig := ⟨some "zip", none, some false, none, "", "", none, none, ""⟩,
              versions := [] },
    status := ⟨none, "", false, "", []⟩ }

/-- C10: getLatestVersion is partial exactly as claimed — the final index is
out of range on an empty spec.versions (modelled as the none result), it is
in bounds for every non-empty list of nonempty entries, and the Depot
constraint pass can produce an empty matched set (here no tag satisfies
">= 3.0.0") which it then writes to the child Module spec. -/
theorem module_latest_version_partiality :
    (∀ (m : Module), m.spec.versions = [] → moduleReconcilerLatestVersion m = none) ∧
    (∀ (vs : List String), vs ≠ [] → (∀ v ∈ vs, v ≠ "") →
      (getLatestVersion vs).isSome = true) ∧
    depotMatchedVersions depotScenarioTags
      [⟨ConstraintOp.ge, ⟨3, 0, 0⟩, ">= 3.0.0"⟩] = some [] := by
  refine ⟨?_, ?_, by rfl⟩
  · intro m h
    rw [moduleReconcilerLatestVersion, h]
    rfl
  · intro vs hne hnemp
    have hce := canonEntries_of_ne_empty vs hnemp
    simp only [getLatestVersion, hce]
    have hLne : List.replicate vs.length "" ++ vs.map canonEntry ≠ [] := by
      intro h0
      rcases List.append_eq_nil.mp h0 with ⟨-, h2⟩
      exact hne (List.map_eq_nil_iff.mp h2)
    have hsne := semverSort_ne_nil hLne
    rw [List.getLast?_eq_getLast _ hsne]
    rfl

/-- Witness for C10. -/
theorem module_latest_version_partiality_witness :
    moduleReconcilerLatestVersion emptyVersionsModule = none ∧
    (getLatestVersion ["1.0.0"]).isSome = true ∧
    depotMatchedVersions depotScenarioTags
      [⟨ConstraintOp.ge, ⟨3, 0, 0⟩, ">= 3.0.0"⟩] = some [] :=
  ⟨module_latest_version_partiality.1 emptyVersionsModule rfl,
   module_latest_version_partiality.2.1 ["1.0.0"] (by decide) (by decide),
   module_latest_version_partiality.2.2⟩

/-! ### C7: the derived storage file path -/

/-- Spec-side formalisation of the file-path claim: the prefix with one
trailing forward slash removed. -/
def claimTrimOneSlash (s : String) : String :=
  match s.toList.getLast? with
  | some '/' => String.mk s.toList.dropLast
  | _ => s

/-- Trailing trim the source applies to a present prefix: one final forward
or backward slash. -/
def trimSlashOrBackslash (s : String) : String :=
  match s.toList.getLast? with
  | none => s
  | some last => if last = '/' ∨ last = '\\' then String.mk s.toList.dropLast else s

/-- Version whose S3 key ends in a backslash. -/
def backslashKeyVersion : Version :=
  { name := "M-1.0.0", finalizers := [], deletionTimestampSet := false,
    spec := { fileName := some "f.zip", forceSync := false,
              moduleConfigRef := some ⟨none, none, some false, some "M", "", "", none,
                some ⟨none, none, some ⟨"b", some "p\\", "us-west-2"⟩, none⟩, ""⟩,
              providerConfigRef := none, type := "Module", version := "1.0.0" },
    status := ⟨none, false, ""⟩ }

/-- C7 counterexample: for the S3 key "p\x5c" (ending in a backslash) the
code derives the path p/M/f.zip — RemoveTrailingSlash also strips a trailing
backslash — while the claimed formula, which removes only a trailing forward
slash, gives p\x5c/M/f.zip. -/
theorem file_path_backslash_counterexample :
    getModuleFilePath backslashKeyVersion = some "p/M/f.zip" ∧
    claimTrimOneSlash "p\\" ++ "/" ++ "M" ++ "/" ++ "f.zip" = "p\\/M/f.zip" ∧
    some ("p/M/f.zip" : String) ≠ some ("p\\/M/f.zip" : String) :=
  ⟨rfl, rfl, by decide⟩

/-- Prefix branch of the path derivation evaluated against the trailing
trim. -/
theorem filePathWithPrefix_eq (pre : String) (cfg : ModuleConfig) (v : Version)
    (name fn : String) (hname : cfg.name = some name) (hfn : v.spec.fileName = some fn)
    (hne : pre ≠ "") :
    filePathWithPrefix pre cfg v =
      some (trimSlashOrBackslash pre ++ "/" ++ name ++ "/" ++ fn) := by
  cases hl : pre.toList.getLast? with
  | none =>
    exfalso
    apply toList_ne_nil_of_ne_empty hne
    exact List.getLast?_eq_none_iff.mp hl
  | some last =>
    have hl2 : pre.data.getLast? = some last := hl
    by_cases hsl : last = '/' ∨ last = '\\'
    · simp [filePathWithPrefix, RemoveTrailingSlash, trimSlashOrBackslash, hl2, hsl, hname, hfn]
    · simp [filePathWithPrefix, RemoveTrailingSlash, trimSlashOrBackslash, hl2, hsl, hname, hfn]

/-- C7 amended: the derived path is {key with one trailing slash or
backslash removed}/{moduleName}/{fileName} for a present, nonempty S3 key;
{directoryPath with one trailing slash or backslash removed}/{moduleName}/
{fileName} for a present, nonempty filesystem directory path when the S3
branch does not fire; and {moduleName}/{fileName} otherwise. -/
theorem file_path_amended (ver : Version) (cfg : ModuleConfig) (sc : StorageConfig)
    (name fn : String)
    (hcfg : ver.spec.moduleConfigRef = some cfg)
    (hsc : cfg.storageConfig = some sc)
    (hname : cfg.name = some name)
    (hfn : ver.spec.fileName = some fn) :
    (∀ s3c key, sc.s3 = some s3c → s3c.key = some key → key ≠ "" →
      getModuleFilePath ver = some (trimSlashOrBackslash key ++ "/" ++ name ++ "/" ++ fn)) ∧
    ((sc.s3 = none ∨ ∃ s3c, sc.s3 = some s3c ∧ s3c.key = none) →
      ∀ fsc dir, sc.fileSystem = some fsc → fsc.directoryPath = some dir → dir ≠ "" →
        getModuleFilePath ver = some (trimSlashOrBackslash dir ++ "/" ++ name ++ "/" ++ fn)) ∧
    ((sc.s3 = none ∨ ∃ s3c, sc.s3 = some s3c ∧ s3c.key = none) →
      (sc.fileSystem = none ∨ ∃ fsc, sc.fileSystem = some fsc ∧ fsc.directoryPath = none) →
      getModuleFilePath ver = some (name ++ "/" ++ fn)) := by
  have hs3branch : ∀ s3c key, sc.s3 = some s3c → s3c.key = some key →
      getModuleFilePath ver = filePathWithPrefix key cfg ver := by
    intro s3c key ha hb
    simp [getModuleFilePath, hcfg, hsc, ha, hb]
  have hfsb : (sc.s3 = none ∨ ∃ s3c, sc.s3 = some s3c ∧ s3c.key = none) →
      getModuleFilePath ver = filePathFileSystemBranch cfg sc ver := by
    intro hs3
    rcases hs3 with h | ⟨s3c, ha, hb⟩
    · simp [getModuleFilePath, hcfg, hsc, h]
    · simp [getModuleFilePath, hcfg, hsc, ha, hb]
  refine ⟨?_, ?_, ?_⟩
  · intro s3c key h1 h2 h3
    rw [hs3branch s3c key h1 h2]
    exact filePathWithPrefix_eq key cfg ver name fn hname hfn h3
  · intro hs3 fsc dir h1 h2 h3
    rw [hfsb hs3]
    simp only [filePathFileSystemBranch, h1, h2]
    exact filePathWithPrefix_eq dir cfg ver name fn hname hfn h3
  · intro hs3 hfs
    rw [hfsb hs3]
    rcases hfs with h | ⟨fsc, ha, hb⟩
    · simp only [filePathFileSystemBranch, h]
      simp [filePathOtherwise, hname, hfn]
    · simp only [filePathFileSystemBranch, ha, hb]
      simp [filePathOtherwise, hname, hfn]

/-- Storage config of the C7 witness: an S3 key with a trailing forward
slash. -/
def slashKeyStorage : StorageConfig := ⟨none, none, some ⟨"b", some "pre/", "us-west-2"⟩, none⟩

/-- Module config of the C7 witness. -/
def slashKeyCfg : ModuleConfig :=
  ⟨none, none, some false, some "M", "", "", none, some slashKeyStorage, ""⟩

/-- Version of the C7 witness. -/
def slashKeyVersion : Version :=
  { name := "M-1.0.0", finalizers := [], deletionTimestampSet := false,
    spec := { fileName := some "f.zip", forceSync := false,
              moduleConfigRef := some slashKeyCfg, providerConfigRef := none,
              type := "Module", version := "1.0.0" },
    status := ⟨none, false, ""⟩ }

/-- Witness for the amended C7. -/
theorem file_path_amended_witness :
    getModuleFilePath slashKeyVersion =
      some (trimSlashOrBackslash "pre/" ++ "/" ++ "M" ++ "/" ++ "f.zip") :=
  (file_path_amended slashKeyVersion slashKeyCfg slashKeyStorage "M" "f.zip"
    rfl rfl rfl rfl).1 ⟨"b", some "pre/", "us-west-2"⟩ "pre/" rfl rfl (by decide)

/-- Witness for C9. -/
theorem download_checksum_gate_witness :
    getObjectFromStorageSystem "b/us-west-2/M/u.zip" "CHK" false (some "CHK") false =
      ⟨200, some "application/zip", true⟩ ∧
    getObjectFromStorageSystem "b/M/u.tar.gz" "CHK" false (some "CHK") false =
      ⟨200, some "application/x-tar", true⟩ ∧
    getObjectFromStorageSystem "b/M/u.zip" "CHK" false (some "DRIFT") true =
      ⟨500, none, false⟩ :=
  ⟨(download_checksum_gate "b/us-west-2/M/u.zip" "CHK" "CHK" false).1 rfl (by decide),
   (download_checksum_gate "b/M/u.tar.gz" "CHK" "CHK" false).2.1 rfl (by decide),
   (download_checksum_gate "b/M/u.zip" "CHK" "DRIFT" true).2.2 (by decide)⟩

end Kerrareg
